import Mathlib

/-!
Verification of the SHL recommendation engine (`src/shl_engine.py`).

The engine holds a fixed 13-record catalog in a pandas DataFrame, and
`recommend(criteria)` filters it (job level, time budget, language), scores the
survivors (role-keyword overlap ×2, competency substring matches ×3), sorts
descending by `relevance_score` and returns a projection of the columns.

Embedding notes:
* Records are a Lean structure with the DataFrame's columns; the catalog is the
  literal list of the 13 rows of `_load_shl_catalog`.
* Python strings are Lean `String` (a wrapper around `List Char` in this
  toolchain); `str.lower` is modelled with `Char.toLower` and `str.split()`
  with `Char.isWhitespace`, which agree with Python on the ASCII data the
  catalog and the documented criteria values use.
* `criteria` is a dict whose five recognized keys may each be absent, so it is
  a structure of `Option` fields; `job_role` may be a non-string value (the
  code guards with `isinstance(text, str)`), captured by `TextVal`.
* `sort_values(by='relevance_score', ascending=False)` uses numpy's default
  sort, which on arrays of at most 15 elements is a plain insertion sort
  (hence stable), and pandas' `nargsort` reverses the array before and the
  index result after an ascending argsort, so for descending order ties keep
  their original relative order.  Every list sorted by this program has at
  most 13 elements, so the sort is modelled as the stable descending
  `List.insertionSort` with relation "score ≥ score".
* The per-row `.at` writes of the scoring loops go to the fresh copy made by
  `self.catalog.copy()`; this is modelled by `recommendSt`, which passes the
  catalog state through explicitly and builds the working list anew.
-/

/-- One row of the catalog DataFrame built by `_load_shl_catalog`. -/
structure Record where
  assessment_id : String
  name : String
  assessment_type : String
  job_level : String
  duration_minutes : Nat
  competencies : List String
  ideal_for : String
  language_availability : String
deriving DecidableEq, Repr

/-- A Python value that may or may not be a string: `_extract_keywords` checks
`isinstance(text, str)` and returns `[]` otherwise. -/
inductive TextVal where
  | ofString (s : String)
  | nonString
deriving DecidableEq, Repr

/-- The `criteria` dict of `recommend`: each recognized key may be absent. -/
structure Criteria where
  job_role : Option TextVal := none
  job_level : Option String := none
  assessment_focus : Option (List String) := none
  time_constraints : Option Nat := none
  required_languages : Option (List String) := none
deriving DecidableEq, Repr

/-- The catalog of `_load_shl_catalog`: 13 rows, columns in source order. -/
def shl_catalog : List Record :=
  [ ⟨"VERIFY-G+", "Verify General Ability", "cognitive", "all", 24,
      ["problem solving", "critical thinking", "analysis"],
      "general screening", "global"⟩,
    ⟨"VERIFY-N", "Verify Numerical Reasoning", "cognitive", "professional", 18,
      ["numerical analysis", "data interpretation", "quantitative reasoning"],
      "finance roles", "global"⟩,
    ⟨"VERIFY-V", "Verify Verbal Reasoning", "cognitive", "professional", 17,
      ["comprehension", "verbal analysis", "reasoning"],
      "knowledge workers", "global"⟩,
    ⟨"OPQ32", "Occupational Personality Questionnaire", "personality", "all", 25,
      ["leadership", "teamwork", "resilience", "communication", "innovation"],
      "comprehensive personality assessment", "global"⟩,
    ⟨"MQ", "Motivation Questionnaire", "motivation", "all", 20,
      ["drive", "purpose", "achievement", "reward focus"],
      "understanding motivational drivers", "global"⟩,
    ⟨"MOTIVATION", "Motivation Inventory", "motivation", "all", 15,
      ["intrinsic drivers", "extrinsic drivers", "social drivers"],
      "quick motivation assessment", "limited"⟩,
    ⟨"PREVUE", "Prevue Assessment", "mixed", "all", 45,
      ["cognitive", "interests", "personality", "abilities"],
      "holistic candidate evaluation", "global"⟩,
    ⟨"REMOTE_WORKER", "Remote Worker Assessment", "behavioral", "all", 20,
      ["autonomy", "self-management", "communication", "collaboration"],
      "remote work positions", "global"⟩,
    ⟨"SALESQ", "SalesQ Assessment", "behavioral", "sales", 25,
      ["persuasion", "resilience", "drive", "relationship building"],
      "sales positions", "limited"⟩,
    ⟨"CALL_CENTER", "Call Center Assessment", "mixed", "entry", 30,
      ["customer focus", "attention to detail", "problem solving"],
      "contact center roles", "global"⟩,
    ⟨"CODING_POTENTIAL", "Coding Potential Assessment", "skill", "technical", 40,
      ["logical thinking", "algorithm design", "analytical reasoning"],
      "developer positions", "global"⟩,
    ⟨"EXEC_GLOBAL", "Executive Global Assessment", "mixed", "executive", 60,
      ["strategic thinking", "influence", "cross-cultural leadership"],
      "senior leadership", "limited"⟩,
    ⟨"SITUATIONAL_JUDGMENT", "Situational Judgment Test", "behavioral", "all", 25,
      ["judgment", "decision making", "situational awareness"],
      "frontline managers", "global"⟩ ]

/-- Lowercasing of a Python string (`str.lower` on the ASCII catalog data). -/
def lowerChars (s : String) : List Char := s.data.map Char.toLower

/-- Python's substring test `needle in hay` on character lists. -/
def isSubstrOf (needle : List Char) : List Char → Bool
  | [] => needle.isEmpty
  | c :: rest => needle.isPrefixOf (c :: rest) || isSubstrOf needle rest

/-- The helper `_extract_keywords`: for a string, replace commas by spaces, split on
whitespace (dropping empty pieces, as Python `str.split()` does) and lowercase
each word; for any non-string value, return the empty list. -/
def extract_keywords : TextVal → List String
  | .ofString s =>
      ((List.splitOnP (fun c => c.isWhitespace)
          (s.data.map (fun c => if c = ',' then ' ' else c))).filter (· ≠ [])).map
        (fun w => String.mk (w.map Char.toLower))
  | .nonString => []

/-- Python's `len(set(a) & set(b))` for keyword lists. -/
def keywordOverlap (a b : List String) : Nat := (a.toFinset ∩ b.toFinset).card

/-- Level filter: `recommendations['job_level'] == criteria['job_level'] or == 'all'`. -/
def levelFilter (crit : Criteria) (recs : List Record) : List Record :=
  match crit.job_level with
  | none => recs
  | some lvl => recs.filter (fun r => r.job_level == lvl || r.job_level == "all")

/-- Time filter: `duration_minutes <= criteria['time_constraints']`. -/
def timeFilter (crit : Criteria) (recs : List Record) : List Record :=
  match crit.time_constraints with
  | none => recs
  | some t => recs.filter (fun r => r.duration_minutes ≤ t)

/-- Language filter: runs only when `required_languages` is present and truthy
(non-empty); it keeps `language_availability == 'global'` rows and never reads
the requested values. -/
def langFilter (crit : Criteria) (recs : List Record) : List Record :=
  match crit.required_languages with
  | none => recs
  | some langs =>
      if langs.isEmpty then recs
      else recs.filter (fun r => r.language_availability == "global")

/-- The three hard filters, applied in source order (level, time, language). -/
def hardFilters (crit : Criteria) (recs : List Record) : List Record :=
  langFilter crit (timeFilter crit (levelFilter crit recs))

/-- A catalog row together with the `relevance_score` column of the working
copy of the DataFrame. -/
structure ScoredRec where
  row : Record
  relevance_score : Nat
deriving DecidableEq, Repr

/-- The column write `recommendations['relevance_score'] = 0`. -/
def initScores (recs : List Record) : List ScoredRec := recs.map (fun r => ⟨r, 0⟩)

/-- Role-keyword scoring loop: when `job_role` is present, each row's score is
incremented by `len(set(job_keywords) & set(ideal_keywords)) * 2`. -/
def applyRoleScoring (crit : Criteria) (l : List ScoredRec) : List ScoredRec :=
  match crit.job_role with
  | none => l
  | some t =>
      l.map (fun s =>
        ⟨s.row, s.relevance_score +
          keywordOverlap (extract_keywords t)
            (extract_keywords (.ofString s.row.ideal_for)) * 2⟩)

/-- The count `sum(1 for comp in focus if any(comp.lower() in c.lower() for c in comps))`. -/
def competencyMatches (focus : List String) (r : Record) : Nat :=
  focus.countP (fun comp =>
    r.competencies.any (fun c => isSubstrOf (lowerChars comp) (lowerChars c)))

/-- Competency scoring loop: when `assessment_focus` is present, each row's
score is incremented by `competency_matches * 3`. -/
def applyFocusScoring (crit : Criteria) (l : List ScoredRec) : List ScoredRec :=
  match crit.assessment_focus with
  | none => l
  | some focus =>
      l.map (fun s => ⟨s.row, s.relevance_score + competencyMatches focus s.row * 3⟩)

/-- Descending order on scores, the sort key of
`sort_values(by='relevance_score', ascending=False)`. -/
abbrev scoreGE (a b : ScoredRec) : Prop := b.relevance_score ≤ a.relevance_score

instance : IsTotal ScoredRec scoreGE :=
  ⟨fun a b => Nat.le_total b.relevance_score a.relevance_score⟩

instance : IsTrans ScoredRec scoreGE :=
  ⟨fun _ _ _ h₁ h₂ => Nat.le_trans h₂ h₁⟩

/-- The pandas sort for this program: on ≤ 15 rows numpy's default sort is a
stable insertion sort, and `nargsort`'s double reversal makes the descending
sort stable as well, so ties keep the working-table order. -/
def sortByScore (l : List ScoredRec) : List ScoredRec := l.insertionSort scoreGE

/-- The working table of `recommend` on catalog `recs`, just before the sort:
filtered rows with their accumulated scores, in catalog order. -/
def scoredOn (crit : Criteria) (recs : List Record) : List ScoredRec :=
  applyFocusScoring crit (applyRoleScoring crit (initScores (hardFilters crit recs)))

/-- The sorted working table of `recommend`, before the column projection. -/
def recommendScoredOn (crit : Criteria) (recs : List Record) : List ScoredRec :=
  sortByScore (scoredOn crit recs)

/-- The columns `recommend` returns (it drops `job_level` and
`language_availability`). -/
structure OutRec where
  assessment_id : String
  name : String
  assessment_type : String
  competencies : List String
  duration_minutes : Nat
  ideal_for : String
  relevance_score : Nat
deriving DecidableEq, Repr

/-- The final column projection of `recommend`. -/
def project (s : ScoredRec) : OutRec :=
  ⟨s.row.assessment_id, s.row.name, s.row.assessment_type, s.row.competencies,
    s.row.duration_minutes, s.row.ideal_for, s.relevance_score⟩

/-- The function `recommend` on an explicit catalog. -/
def recommendOn (crit : Criteria) (recs : List Record) : List OutRec :=
  (recommendScoredOn crit recs).map project

/-- The engine's sorted, scored working table on its own catalog. -/
def recommendScored (crit : Criteria) : List ScoredRec :=
  recommendScoredOn crit shl_catalog

/-- The method `SHLRecommendationEngine.recommend` on the engine's catalog. -/
def recommend (crit : Criteria) : List OutRec :=
  recommendOn crit shl_catalog

/-- The method `get_assessment_details`: first catalog row with the given id, or `none`. -/
def get_assessment_details (assessment_id : String) (catalog : List Record) :
    Option Record :=
  (catalog.filter (fun r => r.assessment_id == assessment_id)).head?

/-- The method `recommend` as a state transformer on the engine's catalog field: the
method reads `self.catalog`, copies it, writes scores only into the copy, and
leaves the stored catalog as it was. -/
def recommendSt (crit : Criteria) (catalog : List Record) :
    List OutRec × List Record :=
  (recommendOn crit catalog, catalog)

/-! ### Claim-facing definitions -/

/-- The conjunction of the three hard filters of `recommend`, as a predicate
on a single record: level (match or "all"), time budget, and language
("global" required whenever a non-empty `required_languages` is present). -/
def satisfiesHardFilters (crit : Criteria) (r : Record) : Bool :=
  (match crit.job_level with
   | none => true
   | some lvl => r.job_level == lvl || r.job_level == "all") &&
  (match crit.time_constraints with
   | none => true
   | some t => r.duration_minutes ≤ t) &&
  (match crit.required_languages with
   | none => true
   | some langs => langs.isEmpty || r.language_availability == "global")

/-- The score contribution of the role-keyword loop for one record. -/
def roleScoreVal (crit : Criteria) (r : Record) : Nat :=
  match crit.job_role with
  | none => 0
  | some t =>
      keywordOverlap (extract_keywords t) (extract_keywords (.ofString r.ideal_for)) * 2

/-- The score contribution of the competency loop for one record. -/
def focusScoreVal (crit : Criteria) (r : Record) : Nat :=
  match crit.assessment_focus with
  | none => 0
  | some focus => competencyMatches focus r * 3

/-- Number of requested competency strings that are a case-insensitive
substring of at least one of the given competency strings, each requested
string counted once. -/
def matchedFocusCount (focus comps : List String) : Nat :=
  focus.countP (fun comp => decide (∃ c ∈ comps, lowerChars comp <:+: lowerChars c))

/-! ### Helper lemmas -/

theorem mem_levelFilter {crit : Criteria} {r : Record} {recs : List Record}
    (h : r ∈ levelFilter crit recs) :
    r ∈ recs ∧
      (match crit.job_level with
       | none => true
       | some lvl => r.job_level == lvl || r.job_level == "all") = true := by
  cases hjl : crit.job_level with
  | none => simp only [levelFilter, hjl] at h; exact ⟨h, rfl⟩
  | some lvl =>
      simp only [levelFilter, hjl] at h
      exact List.mem_filter.mp h

theorem mem_timeFilter {crit : Criteria} {r : Record} {recs : List Record}
    (h : r ∈ timeFilter crit recs) :
    r ∈ recs ∧
      (match crit.time_constraints with
       | none => true
       | some t => decide (r.duration_minutes ≤ t)) = true := by
  cases ht : crit.time_constraints with
  | none => simp only [timeFilter, ht] at h; exact ⟨h, rfl⟩
  | some t =>
      simp only [timeFilter, ht] at h
      exact List.mem_filter.mp h

theorem mem_langFilter {crit : Criteria} {r : Record} {recs : List Record}
    (h : r ∈ langFilter crit recs) :
    r ∈ recs ∧
      (match crit.required_languages with
       | none => true
       | some langs => langs.isEmpty || r.language_availability == "global") = true := by
  cases hl : crit.required_languages with
  | none => simp only [langFilter, hl] at h; exact ⟨h, rfl⟩
  | some langs =>
      simp only [langFilter, hl] at h
      by_cases he : langs.isEmpty
      · rw [if_pos he] at h
        exact ⟨h, by simp [he]⟩
      · rw [if_neg he] at h
        have := List.mem_filter.mp h
        exact ⟨this.1, by simp [this.2]⟩

theorem mem_hardFilters {crit : Criteria} {r : Record} {recs : List Record}
    (h : r ∈ hardFilters crit recs) :
    r ∈ recs ∧ satisfiesHardFilters crit r = true := by
  obtain ⟨h2, hlang⟩ := mem_langFilter h
  obtain ⟨h3, htime⟩ := mem_timeFilter h2
  obtain ⟨h4, hlvl⟩ := mem_levelFilter h3
  refine ⟨h4, ?_⟩
  unfold satisfiesHardFilters
  rw [hlang, htime, hlvl]
  rfl

/-- The working table before the sort is the filtered catalog with each row
paired with its accumulated score. -/
theorem scoredOn_eq_map (crit : Criteria) (recs : List Record) :
    scoredOn crit recs =
      (hardFilters crit recs).map
        (fun r => ⟨r, roleScoreVal crit r + focusScoreVal crit r⟩) := by
  unfold scoredOn applyFocusScoring applyRoleScoring initScores roleScoreVal focusScoreVal
  cases crit.job_role <;> cases crit.assessment_focus <;>
    simp [List.map_map, Function.comp]

/-- Any row of the sorted working table comes from the filtered catalog and
carries exactly the accumulated score of its record. -/
theorem mem_recommendScoredOn {crit : Criteria} {recs : List Record}
    {s : ScoredRec} (h : s ∈ recommendScoredOn crit recs) :
    s.row ∈ hardFilters crit recs ∧
      s.relevance_score = roleScoreVal crit s.row + focusScoreVal crit s.row := by
  have hmem : s ∈ scoredOn crit recs := (List.mem_insertionSort scoreGE).mp h
  rw [scoredOn_eq_map] at hmem
  obtain ⟨r, hr, hs⟩ := List.mem_map.mp hmem
  cases hs
  exact ⟨hr, rfl⟩

/-- Inserting an element that dominates the whole list puts it in front. -/
theorem orderedInsert_all_ge {x : ScoredRec} :
    ∀ {m : List ScoredRec}, (∀ z ∈ m, scoreGE x z) →
      List.orderedInsert scoreGE x m = x :: m
  | [], _ => rfl
  | z :: t, h => by
    simp only [List.orderedInsert]
    rw [if_pos (h z (List.mem_cons_self z t))]

/-- Stability of one insertion step: filtering an `orderedInsert` at the
inserted element's exact score keeps it in front, and filtering at any other
score ignores it.  Elements passed over by the insertion have strictly larger
scores, so they never share the inserted element's score. -/
theorem filter_score_orderedInsert (x : ScoredRec) (n : Nat) :
    ∀ l : List ScoredRec,
      (List.orderedInsert scoreGE x l).filter (fun s => s.relevance_score == n) =
        if x.relevance_score == n then
          x :: l.filter (fun s => s.relevance_score == n)
        else l.filter (fun s => s.relevance_score == n)
  | [] => by
    simp only [List.orderedInsert, List.filter_cons, List.filter_nil]
  | y :: t => by
    by_cases hxy : scoreGE x y
    · simp only [List.orderedInsert, if_pos hxy]
      rw [List.filter_cons]
    · simp only [List.orderedInsert, if_neg hxy]
      rw [List.filter_cons, List.filter_cons, filter_score_orderedInsert x n t]
      have hlt : x.relevance_score < y.relevance_score := Nat.lt_of_not_le hxy
      cases hx : (x.relevance_score == n) with
      | true =>
          have hxn : x.relevance_score = n := by simpa using hx
          have hyn : (y.relevance_score == n) = false := by
            simp only [beq_eq_false_iff_ne, ne_eq]
            omega
          simp [hyn]
      | false => simp

/-- The sort of this program is stable: the rows carrying any fixed score
appear in the output in the same relative order as in the input. -/
theorem filter_score_insertionSort (n : Nat) :
    ∀ l : List ScoredRec,
      (List.insertionSort scoreGE l).filter (fun s => s.relevance_score == n) =
        l.filter (fun s => s.relevance_score == n)
  | [] => rfl
  | x :: t => by
    show (List.orderedInsert scoreGE x (List.insertionSort scoreGE t)).filter _ = _
    rw [filter_score_orderedInsert x n, filter_score_insertionSort n t,
      List.filter_cons]

/-- Filtering commutes with one insertion step into a sorted list. -/
theorem filter_orderedInsert_sorted (p : ScoredRec → Bool) (x : ScoredRec) :
    ∀ l : List ScoredRec, l.Sorted scoreGE →
      (List.orderedInsert scoreGE x l).filter p =
        if p x then List.orderedInsert scoreGE x (l.filter p) else l.filter p
  | [], _ => by
    simp only [List.orderedInsert, List.filter_cons, List.filter_nil]
  | y :: t, hs => by
    have hst : t.Sorted scoreGE := hs.of_cons
    have hyt : ∀ z ∈ t, scoreGE y z := List.rel_of_sorted_cons hs
    by_cases hxy : scoreGE x y
    · simp only [List.orderedInsert, if_pos hxy]
      rw [List.filter_cons, List.filter_cons]
      by_cases hpx : p x = true
      · rw [if_pos hpx, if_pos hpx]
        by_cases hpy : p y = true
        · rw [if_pos hpy]
          simp only [List.orderedInsert]
          rw [if_pos hxy]
        · rw [if_neg hpy]
          rw [orderedInsert_all_ge]
          intro z hz
          have hz' : z ∈ t := (List.mem_filter.mp hz).1
          exact Trans.trans hxy (hyt z hz')
      · rw [if_neg hpx, if_neg hpx]
    · simp only [List.orderedInsert, if_neg hxy]
      rw [List.filter_cons, List.filter_cons,
        filter_orderedInsert_sorted p x t hst]
      by_cases hpy : p y = true
      · rw [if_pos hpy, if_pos hpy]
        by_cases hpx : p x = true
        · rw [if_pos hpx, if_pos hpx]
          simp only [List.orderedInsert]
          rw [if_neg hxy]
        · rw [if_neg hpx, if_neg hpx]
      · rw [if_neg hpy, if_neg hpy]

/-- Filtering commutes with the whole (stable) sort. -/
theorem insertionSort_filter (p : ScoredRec → Bool) :
    ∀ l : List ScoredRec,
      List.insertionSort scoreGE (l.filter p) =
        (List.insertionSort scoreGE l).filter p
  | [] => rfl
  | x :: t => by
    rw [show List.insertionSort scoreGE (x :: t) =
          List.orderedInsert scoreGE x (List.insertionSort scoreGE t) from rfl,
      filter_orderedInsert_sorted p x _ (List.sorted_insertionSort scoreGE t),
      ← insertionSort_filter p t, List.filter_cons]
    by_cases hpx : p x = true
    · rw [if_pos hpx, if_pos hpx]
      rfl
    · rw [if_neg hpx, if_neg hpx]

/-- The time filter commutes with any record filter applied before it. -/
theorem timeFilter_filter (crit : Criteria) (q : Record → Bool) (recs : List Record) :
    timeFilter crit (recs.filter q) = (timeFilter crit recs).filter q := by
  cases ht : crit.time_constraints with
  | none => simp only [timeFilter, ht]
  | some t =>
      simp only [timeFilter, ht, List.filter_filter]
      exact List.filter_congr (fun r _ => Bool.and_comm _ _)

/-- The language filter commutes with any record filter applied before it. -/
theorem langFilter_filter (crit : Criteria) (q : Record → Bool) (recs : List Record) :
    langFilter crit (recs.filter q) = (langFilter crit recs).filter q := by
  cases hl : crit.required_languages with
  | none => simp only [langFilter, hl]
  | some langs =>
      simp only [langFilter, hl]
      by_cases he : langs.isEmpty
      · rw [if_pos he, if_pos he]
      · rw [if_neg he, if_neg he, List.filter_filter, List.filter_filter]
        exact List.filter_congr (fun r _ => Bool.and_comm _ _)

/-- Requesting `job_level = "all"` turns the level filter into "keep the rows
tagged `all`", and this restriction passes through the later filters. -/
theorem hardFilters_level_all (c : Criteria) (recs : List Record) :
    hardFilters {c with job_level := some "all"} recs =
      (hardFilters {c with job_level := none} recs).filter
        (fun r => r.job_level == "all") := by
  unfold hardFilters
  rw [show levelFilter {c with job_level := some "all"} recs =
        recs.filter (fun r => r.job_level == "all" || r.job_level == "all") from rfl,
    List.filter_congr (fun (r : Record) _ => Bool.or_self (r.job_level == "all")),
    timeFilter_filter, langFilter_filter]
  rfl

/-- On the working table, requesting `job_level = "all"` restricts the table
built with no level filter to its rows tagged `all`, scores unchanged. -/
theorem scoredOn_level_all (c : Criteria) (recs : List Record) :
    scoredOn {c with job_level := some "all"} recs =
      (scoredOn {c with job_level := none} recs).filter
        (fun s => s.row.job_level == "all") := by
  rw [scoredOn_eq_map, scoredOn_eq_map, hardFilters_level_all, List.filter_map]
  rfl

/-- The test `isSubstrOf` decides list containment (Python's `in` on strings). -/
theorem isSubstrOf_iff (n : List Char) :
    ∀ h : List Char, isSubstrOf n h = true ↔ n <:+: h
  | [] => by
    simp only [isSubstrOf, List.isEmpty_iff, List.infix_nil]
  | c :: t => by
    simp only [isSubstrOf, Bool.or_eq_true, List.isPrefixOf_iff_prefix,
      isSubstrOf_iff n t, List.infix_cons_iff]

/-- The competency loop counts exactly the requested strings that are a
case-insensitive substring of some competency of the record. -/
theorem competencyMatches_eq (focus : List String) (r : Record) :
    competencyMatches focus r = matchedFocusCount focus r.competencies := by
  unfold competencyMatches matchedFocusCount
  rw [List.countP_eq_length_filter, List.countP_eq_length_filter]
  congr 1
  apply List.filter_congr
  intro comp _
  rw [Bool.eq_iff_iff]
  simp only [List.any_eq_true, decide_eq_true_eq, isSubstrOf_iff]

/-- With a non-empty `required_languages` present, the language filter keeps
exactly the rows available globally. -/
theorem langFilter_of_ne_nil (crit : Criteria) (langs : List String)
    (h : crit.required_languages = some langs) (hne : langs ≠ [])
    (recs : List Record) :
    langFilter crit recs =
      recs.filter (fun r => r.language_availability == "global") := by
  unfold langFilter
  rw [h]
  cases langs with
  | nil => exact absurd rfl hne
  | cons a as => rfl

/-! ### Claims -/

/-- C1: every record in the sequence returned by `recommend` (its working
table `recommendScored`, of which `recommend` is the field projection)
satisfies all hard filters active in the criteria, conjunctively: level match
or "all", duration within `time_constraints`, and global availability whenever
a non-empty `required_languages` is present. -/
theorem recommend_respects_hard_filters (crit : Criteria) (s : ScoredRec)
    (h : s ∈ recommendScored crit) :
    satisfiesHardFilters crit s.row = true ∧
      recommend crit = (recommendScored crit).map project :=
  ⟨(mem_hardFilters (mem_recommendScoredOn h).1).2, rfl⟩

def c1crit : Criteria := ⟨none, some "entry", none, some 30, some ["en"]⟩

def c1row : ScoredRec :=
  ⟨⟨"VERIFY-G+", "Verify General Ability", "cognitive", "all", 24,
    ["problem solving", "critical thinking", "analysis"],
    "general screening", "global"⟩, 0⟩

/-- Witness for C1 at a concrete criteria with all three filters active. -/
theorem recommend_respects_hard_filters_witness :
    satisfiesHardFilters c1crit c1row.row = true ∧
      recommend c1crit = (recommendScored c1crit).map project :=
  recommend_respects_hard_filters c1crit c1row (by decide)

/-- C2: the sequence returned by `recommend` is sorted non-increasing by
`relevance_score`, and the rows holding any fixed score appear in the same
relative order as in the filtered, scored working table (catalog order). -/
theorem recommend_sorted_and_stable (crit : Criteria) :
    List.Sorted scoreGE (recommendScored crit) ∧
      ∀ n : Nat,
        (recommendScored crit).filter (fun s => s.relevance_score == n) =
          (scoredOn crit shl_catalog).filter (fun s => s.relevance_score == n) :=
  ⟨List.sorted_insertionSort scoreGE _, fun n => filter_score_insertionSort n _⟩

def c3crit : Criteria := ⟨none, none, some ["Coding"], none, none⟩

/-- C3 counterexample: with `assessment_focus = ["Coding"]` the
`CODING_POTENTIAL` record scores 0, not 3 (none of its competency strings
contains "coding"), and the head of the result is `VERIFY-G+`, not
`CODING_POTENTIAL`. -/
theorem coding_focus_counterexample :
    ((recommend c3crit).filter (fun o => o.assessment_id == "CODING_POTENTIAL")).map
        (fun o => o.relevance_score) = [0] ∧
      (recommend c3crit).head?.map (fun o => o.assessment_id) =
        some "VERIFY-G+" := by
  decide

/-- C3 amended: `recommend {assessment_focus := ["Coding"]}` gives every
record, `CODING_POTENTIAL` included, a competency-match score of 0 — no
catalog competency string contains "coding" case-insensitively — so the full
catalog comes back in original order with all scores 0. -/
theorem coding_focus_amended :
    recommend c3crit = shl_catalog.map (fun r => project ⟨r, 0⟩) := by
  decide

/-- C4 counterexample: criteria `job_level = "all"` does not reproduce the
result of leaving `job_level` absent. -/
theorem job_level_all_counterexample :
    recommend ⟨none, some "all", none, none, none⟩ ≠
      recommend ⟨none, none, none, none, none⟩ := by
  decide

/-- C4 amended: for every criteria, setting `job_level := "all"` returns the
result of the identical criteria with `job_level` absent restricted to the
records whose own `job_level` tag is `"all"` — the criteria-side "all" is an
ordinary value matched literally, and only the record-side "all" is a
wildcard. -/
theorem job_level_all_amended (c : Criteria) :
    recommendScored {c with job_level := some "all"} =
      (recommendScored {c with job_level := none}).filter
        (fun s => s.row.job_level == "all") := by
  unfold recommendScored recommendScoredOn sortByScore
  rw [scoredOn_level_all]
  exact insertionSort_filter _ _

/-- C5: when `assessment_focus` is present, each surviving record's score is
its role contribution plus exactly 3 times the number of requested competency
strings that are a case-insensitive substring of at least one of the record's
competency strings, each requested string counted at most once. -/
theorem focus_scoring_exact (crit : Criteria) (focus : List String)
    (h : crit.assessment_focus = some focus) (s : ScoredRec)
    (hs : s ∈ recommendScored crit) :
    s.relevance_score =
      roleScoreVal crit s.row + 3 * matchedFocusCount focus s.row.competencies := by
  obtain ⟨-, hsc⟩ := mem_recommendScoredOn hs
  rw [hsc]
  simp only [focusScoreVal, h]
  rw [competencyMatches_eq, Nat.mul_comm]

def c5crit : Criteria := ⟨none, none, some ["analysis"], none, none⟩

def c5row : ScoredRec :=
  ⟨⟨"VERIFY-G+", "Verify General Ability", "cognitive", "all", 24,
    ["problem solving", "critical thinking", "analysis"],
    "general screening", "global"⟩, 3⟩

/-- Witness for C5: requesting `["analysis"]` scores `VERIFY-G+` at 3. -/
theorem focus_scoring_exact_witness :
    c5row.relevance_score =
      roleScoreVal c5crit c5row.row +
        3 * matchedFocusCount ["analysis"] c5row.row.competencies :=
  focus_scoring_exact c5crit ["analysis"] rfl c5row (by decide)

/-- C6: when `job_role` is present, each surviving record's score is exactly
2 times the cardinality of the set intersection of the lowercase tokens of the
criteria's `job_role` and of the record's `ideal_for` (duplicates counted
once), plus the focus contribution; a non-string `job_role` tokenizes to the
empty sequence rather than an error. -/
theorem role_scoring_exact (crit : Criteria) (t : TextVal)
    (h : crit.job_role = some t) (s : ScoredRec)
    (hs : s ∈ recommendScored crit) :
    s.relevance_score =
      2 * keywordOverlap (extract_keywords t)
          (extract_keywords (.ofString s.row.ideal_for)) +
        focusScoreVal crit s.row ∧
      extract_keywords .nonString = [] := by
  refine ⟨?_, rfl⟩
  obtain ⟨-, hsc⟩ := mem_recommendScoredOn hs
  rw [hsc]
  simp only [roleScoreVal, h]
  rw [Nat.mul_comm]

def c6crit : Criteria :=
  ⟨some (.ofString "Software Developer, remote"), none, none, none, none⟩

def c6row : ScoredRec :=
  ⟨⟨"REMOTE_WORKER", "Remote Worker Assessment", "behavioral", "all", 20,
    ["autonomy", "self-management", "communication", "collaboration"],
    "remote work positions", "global"⟩, 2⟩

/-- Witness for C6: the role "Software Developer, remote" scores
`REMOTE_WORKER` at 2 (one shared token, "remote"). -/
theorem role_scoring_exact_witness :
    c6row.relevance_score =
      2 * keywordOverlap (extract_keywords (.ofString "Software Developer, remote"))
          (extract_keywords (.ofString c6row.row.ideal_for)) +
        focusScoreVal c6crit c6row.row ∧
      extract_keywords .nonString = [] :=
  role_scoring_exact c6crit (.ofString "Software Developer, remote") rfl c6row
    (by decide)

/-- Catalog fact: the globally available rows are none of `MOTIVATION`,
`SALESQ`, `EXEC_GLOBAL` (those three are the `limited` rows). -/
theorem global_rows_not_limited_ids :
    ∀ r ∈ shl_catalog, r.language_availability = "global" →
      ¬(r.assessment_id = "MOTIVATION" ∨ r.assessment_id = "SALESQ" ∨
        r.assessment_id = "EXEC_GLOBAL") := by
  decide

/-- C7: with a non-empty `required_languages` present, `recommend` keeps
exactly the rows with `language_availability = "global"` among the level/time
survivors (hence every returned row is global and none of the `limited`
sample rows `MOTIVATION`, `SALESQ`, `EXEC_GLOBAL` appears), and the output is
identical for any two non-empty `required_languages` values — the requested
values are never inspected. -/
theorem language_filter_semantics (crit : Criteria) (langs : List String)
    (h : crit.required_languages = some langs) (hne : langs ≠ [])
    (l₂ : List String) (hne₂ : l₂ ≠ []) :
    hardFilters crit shl_catalog =
      (timeFilter crit (levelFilter crit shl_catalog)).filter
        (fun r => r.language_availability == "global") ∧
      recommend crit = recommend {crit with required_languages := some l₂} ∧
      (recommendScored crit).all
        (fun s => s.row.language_availability == "global") = true ∧
      (recommendScored crit).all
        (fun s => !(s.row.assessment_id == "MOTIVATION" ||
          s.row.assessment_id == "SALESQ" ||
          s.row.assessment_id == "EXEC_GLOBAL")) = true := by
  have hfil : hardFilters crit shl_catalog =
      (timeFilter crit (levelFilter crit shl_catalog)).filter
        (fun r => r.language_availability == "global") := by
    unfold hardFilters
    exact langFilter_of_ne_nil crit langs h hne _
  have hglob : ∀ s ∈ recommendScored crit,
      s.row.language_availability = "global" ∧ s.row ∈ shl_catalog := by
    intro s hs
    obtain ⟨hrow, -⟩ := mem_recommendScoredOn hs
    have hmemcat : s.row ∈ shl_catalog := by
      have h2 := (mem_langFilter hrow).1
      have h3 := (mem_timeFilter h2).1
      exact (mem_levelFilter h3).1
    rw [hfil] at hrow
    have := (List.mem_filter.mp hrow).2
    exact ⟨by simpa using this, hmemcat⟩
  refine ⟨hfil, ?_, ?_, ?_⟩
  · unfold recommend recommendOn recommendScoredOn scoredOn hardFilters
    rw [langFilter_of_ne_nil crit langs h hne,
      langFilter_of_ne_nil {crit with required_languages := some l₂} l₂ rfl hne₂]
    rfl
  · rw [List.all_eq_true]
    intro s hs
    simpa using (hglob s hs).1
  · rw [List.all_eq_true]
    intro s hs
    obtain ⟨hg, hmem⟩ := hglob s hs
    have h' := global_rows_not_limited_ids s.row hmem hg
    push_neg at h'
    simpa using And.intro (And.intro h'.1 h'.2.1) h'.2.2

def c7crit : Criteria := ⟨none, none, none, none, some ["global"]⟩

/-- Witness for C7 at concrete criteria, with a second requested-language
value `["fr"]`. -/
theorem language_filter_semantics_witness :
    hardFilters c7crit shl_catalog =
      (timeFilter c7crit (levelFilter c7crit shl_catalog)).filter
        (fun r => r.language_availability == "global") ∧
      recommend c7crit =
        recommend {c7crit with required_languages := some ["fr"]} ∧
      (recommendScored c7crit).all
        (fun s => s.row.language_availability == "global") = true ∧
      (recommendScored c7crit).all
        (fun s => !(s.row.assessment_id == "MOTIVATION" ||
          s.row.assessment_id == "SALESQ" ||
          s.row.assessment_id == "EXEC_GLOBAL")) = true :=
  language_filter_semantics c7crit ["global"] rfl (by decide) ["fr"] (by decide)

/-- C8: `recommend` on the empty criteria returns all 13 catalog records, each
with `relevance_score` 0, in original catalog order. -/
theorem empty_criteria_returns_catalog :
    recommend ⟨none, none, none, none, none⟩ =
      shl_catalog.map (fun r => project ⟨r, 0⟩) ∧
      (recommend ⟨none, none, none, none, none⟩).length = 13 := by
  decide

/-- C9: no call to `recommend` mutates the engine's catalog: the stored
catalog after a call is the one before it, so `get_assessment_details` and any
later `recommend` call read the same data; scoring writes go only to the
freshly built working table inside the call. -/
theorem recommend_preserves_catalog (crit crit₂ : Criteria)
    (cat : List Record) (aid : String) :
    (recommendSt crit cat).2 = cat ∧
      get_assessment_details aid (recommendSt crit cat).2 =
        get_assessment_details aid cat ∧
      recommendSt crit₂ (recommendSt crit cat).2 = recommendSt crit₂ cat :=
  ⟨rfl, rfl, rfl⟩

/-- C10: a `job_level` value matching no catalog record's tag does not make
`recommend` fail (every step is total); the level filter then keeps exactly
the records whose `job_level` is `"all"`. -/
theorem unmatched_level_keeps_all (crit : Criteria) (lvl : String)
    (h : crit.job_level = some lvl)
    (hnm : shl_catalog.all (fun r => !(r.job_level == lvl)) = true) :
    levelFilter crit shl_catalog =
      shl_catalog.filter (fun r => r.job_level == "all") := by
  unfold levelFilter
  rw [h]
  apply List.filter_congr
  intro r hr
  have hfalse : (r.job_level == lvl) = false := by
    have := List.all_eq_true.mp hnm r hr
    simpa using this
  rw [hfalse, Bool.false_or]

/-- Witness for C10 with the undocumented level value "foo". -/
theorem unmatched_level_keeps_all_witness :
    levelFilter ⟨none, some "foo", none, none, none⟩ shl_catalog =
      shl_catalog.filter (fun r => r.job_level == "all") :=
  unmatched_level_keeps_all ⟨none, some "foo", none, none, none⟩ "foo" rfl
    (by decide)
